import Mathlib

/-
Verification of the botoweb.sql query-construction engine
(src/botoweb/util.js, the `botoweb.sql` namespace).

The embedding is shallow: JS objects become Lean structures, object
identity of Table objects is represented by a numeric `oid` carried in
`TableRef` (each `new Table(...)` in JS yields a distinct reference; we
give distinct tables distinct oids), and the mutating builder methods
become state-passing functions returning the updated Query.
-/

/-- Identity and physical name of a table object.  `Column.table` in the
source is a reference to the owning Table object; only its identity and
its physical name (used by `Table.toString`) are ever consulted through
that reference, so the reference is embedded as this record. -/
structure TableRef where
  oid : Nat
  tbl_name : String
deriving DecidableEq, Repr

/-- `botoweb.sql.Column`: physical column name plus owning table
reference. -/
structure Column where
  name : String
  table : TableRef
deriving DecidableEq, Repr

/-- `Column.toString`: renders `<table>.<name>` where the table renders
as its physical name. -/
def Column.render (c : Column) : String := c.table.tbl_name ++ "." ++ c.name

/-- The rendering strategies (`str_fnc`) actually created in the source:
`Column.cmp` joins operands with the SQL operator, `or`/`and` join with
the connective inside parentheses, `func` renders a call. -/
inductive StrFn where
  | joinOp (op : String)
  | orFn
  | andFn
  | funcFn (fname : String)
deriving DecidableEq, Repr

mutual
/-- One element of `Expression.columns` in the source: literals are
pushed as the string `'?'` (we keep the literal value alongside purely
as a specification ghost; rendering ignores it, matching the source),
Columns and nested Expressions are pushed as-is. -/
inductive EItem where
  | placeholder (v : String)
  | col (c : Column)
  | sub (e : Expr)
/-- `botoweb.sql.Expression`: operand list, required tables, ordered
bind parameters, and the rendering strategy. -/
inductive Expr where
  | mk (columns : List EItem) (tables : List TableRef) (bind_params : List String) (fn : StrFn)
end

def Expr.columns : Expr → List EItem
  | .mk cs _ _ _ => cs

def Expr.tables : Expr → List TableRef
  | .mk _ ts _ _ => ts

def Expr.bind_params : Expr → List String
  | .mk _ _ bp _ => bp

def Expr.fn : Expr → StrFn
  | .mk _ _ _ f => f

/-- `_add_table` (shared by Expression and Query): push unless already
present; `$.inArray` uses object identity, embedded as `TableRef`
equality. -/
def addTable (ts : List TableRef) (t : TableRef) : List TableRef :=
  if t ∈ ts then ts else ts ++ [t]

def addTables (ts : List TableRef) (ns : List TableRef) : List TableRef :=
  ns.foldl addTable ts

/-- An argument passed to the `Expression` constructor: a nested
Expression, a Column, or anything else (a literal). -/
inductive Operand where
  | oexpr (e : Expr)
  | ocol (c : Column)
  | olit (v : String)

/-- One iteration of the `$.each(columns, ...)` classification loop in
the `Expression` constructor. -/
def exprStep (e : Expr) (op : Operand) : Expr :=
  match e, op with
  | .mk cs ts bp fn, .oexpr s => .mk (cs ++ [.sub s]) (addTables ts s.tables) (bp ++ s.bind_params) fn
  | .mk cs ts bp fn, .ocol c => .mk (cs ++ [.col c]) (addTable ts c.table) bp fn
  | .mk cs ts bp fn, .olit v => .mk (cs ++ [.placeholder v]) ts (bp ++ [v]) fn

/-- The `botoweb.sql.Expression` constructor. -/
def Expression (ops : List Operand) (fn : StrFn) : Expr :=
  ops.foldl exprStep (.mk [] [] [] fn)

/-- JS `Array.join(sep)` on a list of already-rendered pieces. -/
def joinSep (sep : String) : List String → String
  | [] => ""
  | [s] => s
  | s :: rest => s ++ sep ++ joinSep sep rest

/-- Dispatch of the `str_fnc` closures created in the source. -/
def renderFn (fn : StrFn) (pieces : List String) : String :=
  match fn with
  | .joinOp op => joinSep (" " ++ op ++ " ") pieces
  | .orFn => "(" ++ joinSep " OR " pieces ++ ")"
  | .andFn => "(" ++ joinSep " AND " pieces ++ ")"
  | .funcFn fname => fname ++ "(" ++ joinSep "," pieces ++ ")"

mutual
/-- `Expression.toString`: apply the rendering strategy to the rendered
operand list. -/
def Expr.toString : Expr → String
  | .mk cs _ _ fn => renderFn fn (renderItems cs)
def renderItems : List EItem → List String
  | [] => []
  | it :: its => EItem.render it :: renderItems its
def EItem.render : EItem → String
  | .placeholder _ => "?"
  | .col c => c.render
  | .sub e => e.toString
end

/-- `botoweb.sql.or`: combine any number of operands with OR logic. -/
def sqlOr (args : List Operand) : Expr := Expression args .orFn

/-- `botoweb.sql.and`: combine any number of operands with AND logic. -/
def sqlAnd (args : List Operand) : Expr := Expression args .andFn

/-- `botoweb.sql.func`: renders `fname(arg1,arg2,...)`. -/
def sqlFunc (fname : String) (args : List Operand) : Expr :=
  Expression args (.funcFn fname)

/-- JS string coercion of a cmp operand when it is concatenated with the
`%` wildcards (`'%' + val` invokes `toString` on objects). -/
def Operand.asString : Operand → String
  | .oexpr e => e.toString
  | .ocol c => c.render
  | .olit v => v

/-- `Column.cmp(val, op)`.  `op = op || 'is'` (absent or empty operator
falls back to `'is'`); `contains`/`starts-with`/`ends-with` rewrite the
value with `%` wildcards and keep the SQL operator `like`; any other
operator is passed through as the SQL operator with the value
unmodified. -/
def Column.cmp (self : Column) (val : Operand) (op0 : Option String) : Expr :=
  let op := match op0 with
    | none => "is"
    | some s => if s = "" then "is" else s
  if op = "contains" then
    Expression [.ocol self, .olit ("%" ++ Operand.asString val ++ "%")] (.joinOp "like")
  else if op = "starts-with" then
    Expression [.ocol self, .olit (Operand.asString val ++ "%")] (.joinOp "like")
  else if op = "ends-with" then
    Expression [.ocol self, .olit ("%" ++ Operand.asString val)] (.joinOp "like")
  else
    Expression [.ocol self, val] (.joinOp op)

/-- `botoweb.sql.Table`: logical name, table reference (identity plus
physical name), and the logical-column-name → Column map.  JS object
property order is insertion order, embedded as an association list. -/
structure Table where
  ref : TableRef
  name : String
  c : List (String × Column)

/-- JS `obj[k] = v`: overwrite in place if the key exists (keeping its
position), otherwise append. -/
def assocSet (l : List (String × Column)) (k : String) (v : Column) : List (String × Column) :=
  if l.any (fun p => p.1 == k) then
    l.map (fun p => if p.1 == k then (k, v) else p)
  else
    l ++ [(k, v)]

/-- The `Table` constructor: `name = name || tbl_name`; always
synthesizes `c['id']` first; then for each physical column name, maps
the logical alias (or the physical name when no alias is given) to a
Column owned by this table.  `oid` stands for the identity of the newly
allocated object. -/
def mkTable (oid : Nat) (tbl_name : String) (tbl_columns : List String)
    (name : Option String) (columns : List (Option String)) : Table :=
  let ref : TableRef := ⟨oid, tbl_name⟩
  { ref := ref
    name := (name.getD tbl_name)
    c := (tbl_columns.enum.foldl
      (fun acc pc =>
        assocSet acc (((columns.getD pc.1 none).getD pc.2)) ⟨pc.2, ref⟩)
      [("id", ⟨"id", ref⟩)]) }

/-- `column.c.id` as used by `Query.toString`: the `id` entry of the
logical column map (always present for constructor-built tables). -/
def Table.idCol (t : Table) : Column :=
  ((t.c.lookup "id").getD ⟨"id", t.ref⟩)

/-- Association-list lookup embedding `this[0] in tbl.c` followed by
`tbl.c[this[0]]`. -/
def Table.findCol (t : Table) (k : String) : Option Column :=
  t.c.lookup k

/-- An element of `Query.columns`: the source mixes Table objects and
Column objects in one array. -/
inductive SelEntry where
  | tbl (t : Table)
  | col (c : Column)

/-- `botoweb.sql.Query` state. -/
structure Query where
  columns : List SelEntry
  tables : List TableRef
  filters : List Expr
  groups : List (Expr × String)
  order : List (Expr × String)
  bind_params : List String
  follow_refs : Bool

/-- The Query constructor state before the initial columns are
appended. -/
def Query.empty : Query :=
  { columns := [], tables := [], filters := [], groups := [], order := []
    bind_params := [], follow_refs := false }

/-- `Query.append_column`: pushes onto the select list.  The
`_add_table` calls present in the source are commented out, so no table
is registered here. -/
def Query.append_column (q : Query) (e : SelEntry) : Query :=
  { q with columns := q.columns ++ [e] }

/-- The `Query(columns)` constructor: appends each initial column or
table. -/
def Query.new (cols : List SelEntry) : Query :=
  cols.foldl Query.append_column Query.empty

/-- `Query._add_table`. -/
def Query.add_table (q : Query) (t : TableRef) : Query :=
  { q with tables := addTable q.tables t }

/-- `Query.filter`: push the expression, merge its tables (deduplicated)
and append its bind parameters in order. -/
def Query.filter (q : Query) (e : Expr) : Query :=
  { q with filters := q.filters ++ [e]
           tables := addTables q.tables e.tables
           bind_params := q.bind_params ++ e.bind_params }

/-- `Query.group_by`. -/
def Query.group_by (q : Query) (e : Expr) (dir : String) : Query :=
  { q with groups := q.groups ++ [(e, dir)] }

/-- `Query.order_by`. -/
def Query.order_by (q : Query) (e : Expr) (dir : String) : Query :=
  { q with order := q.order ++ [(e, dir)] }

/-- `Query.follow_references`. -/
def Query.follow_references (q : Query) : Query :=
  { q with follow_refs := true }

/-- Modelled from the spec: `botoweb.ldb.normalize_filters` (external
normalization step, not part of this repository's source) converts the
looser implicit-equality map shape into (field, operator, value)
triples; on input already in the normalized triple form it is the
identity, which is the only form this development quantifies over. -/
def normalize_filters (fs : List (String × String × String)) : List (String × String × String) := fs

/-- The property names the JS `in` operator finds on every plain object
through Object.prototype (the ES5 standard members plus the de-facto
Annex B accessors present in the browsers this code targets).  The
guard `this[0] in tbl.c` (util.js line 210) is true for these even when
they are not logical columns; `tbl.c[field]` then yields the inherited
function, whose `.cmp` is undefined, and the call throws a
TypeError. -/
def objectPrototypeKeys : List String :=
  ["constructor", "toString", "toLocaleString", "valueOf", "hasOwnProperty",
    "isPrototypeOf", "propertyIsEnumerable", "__proto__", "__defineGetter__",
    "__defineSetter__", "__lookupGetter__", "__lookupSetter__"]

/-- The `$.each(filters, ...)` loop of `apply_bw_filters`.  A triple
whose field is an own key of `tbl.c` (a logical column, shadowing any
inherited member) adds the comparison filter
`tbl.c[field].cmp(value, op)`.  A triple whose field is only an
inherited Object.prototype member passes the `in` guard but then calls
`.cmp` on a non-Column value: the loop throws a TypeError, aborting the
iteration.  Any other field fails the `in` guard and is skipped. -/
def applyBwLoop (tbl : Table) (q : Query) :
    List (String × String × String) → Except String Query
  | [] => .ok q
  | tr :: fs =>
    match tbl.findCol tr.1 with
    | some c => applyBwLoop tbl (q.filter (c.cmp (.olit tr.2.2) (some tr.2.1))) fs
    | none =>
      if tr.1 ∈ objectPrototypeKeys then .error "TypeError"
      else applyBwLoop tbl q fs

/-- `Query.apply_bw_filters`: normalize, then convert each triple with
a known field into a column comparison filter; a thrown TypeError (on a
prototype-key field) propagates out of the call. -/
def Query.apply_bw_filters (q : Query) (fs : List (String × String × String)) (tbl : Table) :
    Except String Query :=
  applyBwLoop tbl q (normalize_filters fs)

/-- The implicit join filter `c.table.c.id.cmp(column.c.id)` added by
`Query.toString` for a foreign column owned by `owner` inside the
selected table `t`.  `c.table.c.id` is the owner's id Column, which the
Table constructor defines as `Column('id', owner)`. -/
def joinIdFilter (owner : TableRef) (t : Table) : Expr :=
  Column.cmp ⟨"id", owner⟩ (.ocol t.idCol) none

/-- The body of the inner `$.each(column.c, ...)` loop of
`Query.toString`: a foreign column (owning table differs from the
selected table) is skipped unless `follow_refs` is set, in which case
its owning table is added and the implicit id-join filter is pushed;
the column itself is appended to the select list. -/
def expandStep (fr : Bool) (t : Table) (acc : List Column × Query) (p : String × Column) :
    List Column × Query :=
  let c := p.2
  if c.table ≠ t.ref then
    if fr then
      ((acc.1 ++ [c]), ((acc.2.add_table c.table).filter (joinIdFilter c.table t)))
    else
      acc
  else
    ((acc.1 ++ [c]), acc.2)

/-- Processing of one entry of `Query.columns` by `Query.toString`: a
Table is expanded into its columns via `expandStep`; a bare Column is
pushed directly. -/
def entryStep (fr : Bool) (acc : List Column × Query) (entry : SelEntry) :
    List Column × Query :=
  match entry with
  | .tbl t => t.c.foldl (expandStep fr t) acc
  | .col c => ((acc.1 ++ [c]), acc.2)

/-- The column-expansion loop at the start of `Query.toString`.  It
builds the final select-column list and, as a side effect on the Query,
may add tables and implicit join filters. -/
def Query.expand (q : Query) : List Column × Query :=
  q.columns.foldl (entryStep q.follow_refs) ([], q)

/-- The WHERE-clause body: filters joined with `' AND '`. -/
def Query.whereClause (q : Query) : String :=
  joinSep " AND " (q.filters.map Expr.toString)

/-- One GROUP BY / ORDER BY entry: JS `g.join(' ')` on the
`[expression, direction]` pair. -/
def pairRender (g : Expr × String) : String := g.1.toString ++ " " ++ g.2

/-- `Query.toString`: expands selected tables into columns (with the
side effects of `expand`), then emits SELECT, FROM, WHERE, GROUP BY and
ORDER BY in order, each of the last four only when its list is
nonempty.  Returns the SQL text together with the (possibly mutated)
query state. -/
def Query.render (q : Query) : String × Query :=
  let ex := q.expand
  let sql := "SELECT " ++ joinSep ", " (ex.1.map Column.render)
  let sql := if ex.2.tables.isEmpty then sql else
    sql ++ "\nFROM " ++ joinSep ", " (ex.2.tables.map TableRef.tbl_name)
  let sql := if ex.2.filters.isEmpty then sql else
    sql ++ "\nWHERE " ++ ex.2.whereClause
  let sql := if ex.2.groups.isEmpty then sql else
    sql ++ "\nGROUP BY " ++ joinSep ", " (ex.2.groups.map pairRender)
  let sql := if ex.2.order.isEmpty then sql else
    sql ++ "\nORDER BY " ++ joinSep ", " (ex.2.order.map pairRender)
  (sql, ex.2)

/-- The end-to-end sample scenario: `Table('items', ['name'])`. -/
def itemsTable : Table := mkTable 0 "items" ["name"] none []

/-- Number of `?` characters in a string. -/
def countQ (s : String) : Nat := s.data.count '?'

/-- The bind parameters contributed by one operand slot of an
expression: a literal contributes itself, a column nothing, a nested
expression its own bind-parameter list. -/
def EItem.litParams : EItem → List String
  | .placeholder v => [v]
  | .col _ => []
  | .sub e => e.bind_params

mutual
/-- Structural well-formedness: the stored bind-parameter list is
exactly the in-order concatenation of the parameters contributed by the
operand slots, recursively.  Every expression built by the
`Expression` constructor satisfies this. -/
def Expr.wfb : Expr → Bool
  | .mk cs _ bp _ => (bp == (cs.map EItem.litParams).flatten) && itemsWfb cs
def itemsWfb : List EItem → Bool
  | [] => true
  | it :: its => EItem.wfb it && itemsWfb its
def EItem.wfb : EItem → Bool
  | .placeholder _ => true
  | .col _ => true
  | .sub e => e.wfb
end

/-- The rendering strategy introduces no stray `?` of its own. -/
def StrFn.qfreeb : StrFn → Bool
  | .joinOp op => countQ op == 0
  | .orFn => true
  | .andFn => true
  | .funcFn fname => countQ fname == 0

mutual
/-- No identifier or operator occurring in the expression contains a
literal `?` character, so the placeholders are the only `?`s in the
rendered text. -/
def Expr.qfreeb : Expr → Bool
  | .mk cs _ _ fn => fn.qfreeb && itemsQfree cs
def itemsQfree : List EItem → Bool
  | [] => true
  | it :: its => EItem.qfreeb it && itemsQfree its
def EItem.qfreeb : EItem → Bool
  | .placeholder _ => true
  | .col c => countQ c.render == 0
  | .sub e => e.qfreeb
end

mutual
/-- Reference rendering in which every literal operand appears inline
at the position of its own placeholder.  "The Nth placeholder
corresponds to the Nth bind parameter" is expressed as: substituting
the bind-parameter list into the placeholders of `Expr.toString`
left-to-right yields exactly this string. -/
def Expr.inlineRender : Expr → String
  | .mk cs _ _ fn => renderFn fn (inlineItems cs)
def inlineItems : List EItem → List String
  | [] => []
  | it :: its => EItem.inline it :: inlineItems its
def EItem.inline : EItem → String
  | .placeholder v => v
  | .col c => c.render
  | .sub e => e.inlineRender
end

/-- Substitute parameters for `?` placeholders, left to right; a
substituted parameter is spliced in verbatim and not rescanned. -/
def fillChars : List Char → List String → List Char
  | [], _ => []
  | ch :: cs, ps =>
    if ch = '?' then
      match ps with
      | p :: ps2 => p.data ++ fillChars cs ps2
      | [] => ch :: fillChars cs []
    else ch :: fillChars cs ps

def fillStr (s : String) (ps : List String) : String := String.mk (fillChars s.data ps)

theorem countQ_append (a b : String) : countQ (a ++ b) = countQ a + countQ b := by
  simp [countQ, String.data_append, List.count_append]

theorem countQ_joinSep (sep : String) (h : countQ sep = 0) :
    ∀ l : List String, countQ (joinSep sep l) = (l.map countQ).sum
  | [] => rfl
  | [s] => by simp [joinSep]
  | s :: s2 :: rest => by
    have ih := countQ_joinSep sep h (s2 :: rest)
    simp only [joinSep, List.map_cons, List.sum_cons, countQ_append, h] at ih ⊢
    omega

theorem countQ_renderFn (fn : StrFn) (hfn : fn.qfreeb = true) (l : List String) :
    countQ (renderFn fn l) = (l.map countQ).sum := by
  cases fn with
  | joinOp op =>
    have hop : countQ op = 0 := by
      simpa [StrFn.qfreeb] using hfn
    have hsep : countQ (" " ++ op ++ " ") = 0 := by
      simp [countQ_append, hop]
      rfl
    simpa [renderFn] using countQ_joinSep _ hsep l
  | orFn =>
    have hsep : countQ (" OR " : String) = 0 := rfl
    have hl : countQ ("(" : String) = 0 := rfl
    have hr : countQ (")" : String) = 0 := rfl
    have := countQ_joinSep " OR " hsep l
    simp [renderFn, countQ_append, this, hl, hr]
  | andFn =>
    have hsep : countQ (" AND " : String) = 0 := rfl
    have hl : countQ ("(" : String) = 0 := rfl
    have hr : countQ (")" : String) = 0 := rfl
    have := countQ_joinSep " AND " hsep l
    simp [renderFn, countQ_append, this, hl, hr]
  | funcFn fname =>
    have hf : countQ fname = 0 := by
      simpa [StrFn.qfreeb] using hfn
    have hsep : countQ ("," : String) = 0 := rfl
    have hl : countQ ("(" : String) = 0 := rfl
    have hr : countQ (")" : String) = 0 := rfl
    have := countQ_joinSep "," hsep l
    simp [renderFn, countQ_append, this, hf, hl, hr]

mutual
/-- In a well-formed `?`-clean expression, the number of `?` characters
in the rendered text equals the number of bind parameters. -/
theorem countQ_toString : ∀ e : Expr, e.wfb = true → e.qfreeb = true →
    countQ (Expr.toString e) = e.bind_params.length
  | .mk cs ts bp fn, hw, hq => by
    simp only [Expr.wfb, Bool.and_eq_true, beq_iff_eq] at hw
    simp only [Expr.qfreeb, Bool.and_eq_true] at hq
    rw [Expr.toString, countQ_renderFn fn hq.1, countQ_renderItems cs hw.2 hq.2,
      hw.1, Expr.bind_params, List.length_flatten, List.map_map]
    rfl
theorem countQ_renderItems : ∀ cs : List EItem, itemsWfb cs = true → itemsQfree cs = true →
    (renderItems cs).map countQ = cs.map (fun it => (EItem.litParams it).length)
  | [], _, _ => rfl
  | it :: its, hw, hq => by
    simp only [itemsWfb, Bool.and_eq_true] at hw
    simp only [itemsQfree, Bool.and_eq_true] at hq
    rw [renderItems, List.map_cons, List.map_cons, countQ_item it hw.1 hq.1,
      countQ_renderItems its hw.2 hq.2]
theorem countQ_item : ∀ it : EItem, EItem.wfb it = true → EItem.qfreeb it = true →
    countQ (EItem.render it) = (EItem.litParams it).length
  | .placeholder v, _, _ => rfl
  | .col c, _, hq => by
    simp only [EItem.qfreeb, beq_iff_eq] at hq
    simp [EItem.render, EItem.litParams, hq]
  | .sub e, hw, hq => by
    rw [EItem.render, EItem.litParams, countQ_toString e hw hq]
end

theorem fillChars_nil_ps : ∀ cs : List Char, fillChars cs [] = cs
  | [] => rfl
  | ch :: cs => by
    by_cases h : ch = '?' <;> simp [fillChars, h, fillChars_nil_ps cs]

theorem fillChars_append : ∀ (s t : List Char) (ps : List String),
    fillChars (s ++ t) ps
      = fillChars s (ps.take (s.count '?')) ++ fillChars t (ps.drop (s.count '?'))
  | [], t, ps => by simp [fillChars]
  | ch :: s, t, ps => by
    have ih := fillChars_append s t
    by_cases h : ch = '?'
    · subst h
      cases ps with
      | nil =>
        simp only [List.cons_append, fillChars, if_pos rfl, List.take_nil, List.drop_nil,
          List.append_eq, ih]
        simp [fillChars]
      | cons p ps2 =>
        simp only [List.cons_append, fillChars, if_pos rfl, List.append_eq, ih ps2,
          List.count_cons, beq_self_eq_true, if_pos, List.take_succ_cons, List.drop_succ_cons]
        simp
    · simp only [List.cons_append, fillChars, if_neg h, List.append_eq, ih ps,
        List.count_cons]
      simp [h]

theorem fillStr_append (a b : String) (ps : List String) :
    fillStr (a ++ b) ps
      = fillStr a (ps.take (countQ a)) ++ fillStr b (ps.drop (countQ a)) := by
  show String.mk (fillChars (a ++ b).data ps) = _
  rw [String.data_append, fillChars_append]
  rfl

theorem fillStr_nil_ps (s : String) : fillStr s [] = s := by
  show String.mk (fillChars s.data []) = s
  rw [fillChars_nil_ps]

theorem joinSep_cons_of_ne (sep x : String) (l : List String) (h : l ≠ []) :
    joinSep sep (x :: l) = x ++ sep ++ joinSep sep l := by
  cases l with
  | nil => exact absurd rfl h
  | cons y ys => rfl

theorem countQ_joinSep_items (sep : String) (hsep : countQ sep = 0) (cs : List EItem)
    (hw : itemsWfb cs = true) (hq : itemsQfree cs = true) :
    countQ (joinSep sep (renderItems cs)) = ((cs.map EItem.litParams).flatten).length := by
  rw [countQ_joinSep sep hsep, countQ_renderItems cs hw hq, List.length_flatten, List.map_map]
  rfl

mutual
/-- Substituting the bind parameters into the placeholders of the
rendered text, left to right, recovers the inline rendering: the Nth
placeholder corresponds to the Nth bind parameter. -/
theorem fill_toString : ∀ e : Expr, e.wfb = true → e.qfreeb = true →
    fillStr (Expr.toString e) e.bind_params = Expr.inlineRender e
  | .mk cs ts bp fn, hw, hq => by
    have hw' := hw
    have hq' := hq
    simp only [Expr.wfb, Bool.and_eq_true, beq_iff_eq] at hw'
    simp only [Expr.qfreeb, Bool.and_eq_true] at hq'
    cases fn with
    | joinOp op =>
      have hop : countQ op = 0 := by simpa [StrFn.qfreeb] using hq'.1
      have hsep : countQ (" " ++ op ++ " ") = 0 := by
        simp [countQ_append, hop]
        rfl
      show fillStr (joinSep (" " ++ op ++ " ") (renderItems cs)) bp
          = joinSep (" " ++ op ++ " ") (inlineItems cs)
      rw [hw'.1]
      exact fill_joinItems (" " ++ op ++ " ") hsep cs hw'.2 hq'.2
    | orFn =>
      have hsep : countQ (" OR " : String) = 0 := rfl
      have h0 : countQ ("(" : String) = 0 := rfl
      have hJ : countQ (joinSep " OR " (renderItems cs)) = bp.length := by
        rw [countQ_joinSep_items " OR " hsep cs hw'.2 hq'.2, hw'.1]
      show fillStr ("(" ++ (joinSep " OR " (renderItems cs) ++ ")")) bp
          = "(" ++ (joinSep " OR " (inlineItems cs) ++ ")")
      rw [fillStr_append, h0, List.take_zero, List.drop_zero, fillStr_nil_ps,
        fillStr_append, hJ, List.take_length, List.drop_length, fillStr_nil_ps,
        hw'.1, fill_joinItems " OR " hsep cs hw'.2 hq'.2]
    | andFn =>
      have hsep : countQ (" AND " : String) = 0 := rfl
      have h0 : countQ ("(" : String) = 0 := rfl
      have hJ : countQ (joinSep " AND " (renderItems cs)) = bp.length := by
        rw [countQ_joinSep_items " AND " hsep cs hw'.2 hq'.2, hw'.1]
      show fillStr ("(" ++ (joinSep " AND " (renderItems cs) ++ ")")) bp
          = "(" ++ (joinSep " AND " (inlineItems cs) ++ ")")
      rw [fillStr_append, h0, List.take_zero, List.drop_zero, fillStr_nil_ps,
        fillStr_append, hJ, List.take_length, List.drop_length, fillStr_nil_ps,
        hw'.1, fill_joinItems " AND " hsep cs hw'.2 hq'.2]
    | funcFn fname =>
      have hfn : countQ fname = 0 := by simpa [StrFn.qfreeb] using hq'.1
      have hsep : countQ ("," : String) = 0 := rfl
      have h0 : countQ ("(" : String) = 0 := rfl
      have hJ : countQ (joinSep "," (renderItems cs)) = bp.length := by
        rw [countQ_joinSep_items "," hsep cs hw'.2 hq'.2, hw'.1]
      have hfo : countQ (fname ++ "(") = 0 := by
        rw [countQ_append, hfn, h0]
      have hh : countQ (fname ++ "(" ++ joinSep "," (renderItems cs)) = bp.length := by
        rw [countQ_append, hfo, hJ]
        omega
      simp only [Expr.toString, Expr.inlineRender, Expr.bind_params, renderFn]
      rw [fillStr_append, hh, List.take_length, List.drop_length, fillStr_nil_ps,
        fillStr_append, hfo, List.take_zero, List.drop_zero, fillStr_nil_ps,
        hw'.1, fill_joinItems "," hsep cs hw'.2 hq'.2]
theorem fill_joinItems : ∀ (sep : String), countQ sep = 0 → ∀ cs : List EItem,
    itemsWfb cs = true → itemsQfree cs = true →
    fillStr (joinSep sep (renderItems cs)) ((cs.map EItem.litParams).flatten)
      = joinSep sep (inlineItems cs)
  | sep, _, [], _, _ => rfl
  | sep, _, [it], hw, hq => by
    rw [itemsWfb, Bool.and_eq_true] at hw
    rw [itemsQfree, Bool.and_eq_true] at hq
    simp only [renderItems, inlineItems, joinSep, List.map_cons, List.map_nil,
      List.flatten_cons, List.flatten_nil, List.append_nil]
    exact fill_item it hw.1 hq.1
  | sep, hsep, it :: it2 :: rest, hw, hq => by
    rw [itemsWfb, Bool.and_eq_true] at hw
    rw [itemsQfree, Bool.and_eq_true] at hq
    have h1 : countQ (EItem.render it) = (EItem.litParams it).length :=
      countQ_item it hw.1 hq.1
    have hne : renderItems (it2 :: rest) ≠ [] := by
      rw [renderItems]
      exact List.cons_ne_nil _ _
    have hne2 : inlineItems (it2 :: rest) ≠ [] := by
      rw [inlineItems]
      exact List.cons_ne_nil _ _
    have h2 : countQ (EItem.render it ++ sep) = (EItem.litParams it).length := by
      rw [countQ_append, h1, hsep]
      omega
    rw [show renderItems (it :: it2 :: rest)
          = EItem.render it :: renderItems (it2 :: rest) from rfl,
      show inlineItems (it :: it2 :: rest)
          = EItem.inline it :: inlineItems (it2 :: rest) from rfl,
      joinSep_cons_of_ne sep _ _ hne, joinSep_cons_of_ne sep _ _ hne2,
      show (List.map EItem.litParams (it :: it2 :: rest)).flatten
          = EItem.litParams it ++ (List.map EItem.litParams (it2 :: rest)).flatten from by simp]
    rw [fillStr_append, h2, List.take_left, List.drop_left,
      fillStr_append, h1, List.take_length, List.drop_length, fillStr_nil_ps,
      fill_item it hw.1 hq.1,
      fill_joinItems sep hsep (it2 :: rest) hw.2 hq.2]
theorem fill_item : ∀ it : EItem, EItem.wfb it = true → EItem.qfreeb it = true →
    fillStr (EItem.render it) (EItem.litParams it) = EItem.inline it
  | .placeholder v, _, _ => by
    show String.mk (fillChars ['?'] [v]) = v
    simp [fillChars]
  | .col c, _, _ => by
    rw [EItem.render, EItem.litParams, fillStr_nil_ps, EItem.inline]
  | .sub e, hw, hq => by
    rw [EItem.render, EItem.litParams, fill_toString e hw hq, EItem.inline]
end

theorem itemsWfb_append : ∀ a b : List EItem, itemsWfb (a ++ b) = (itemsWfb a && itemsWfb b)
  | [], b => by simp [itemsWfb]
  | it :: a, b => by
    simp [itemsWfb, itemsWfb_append a b, Bool.and_assoc]

theorem itemsQfree_append : ∀ a b : List EItem, itemsQfree (a ++ b) = (itemsQfree a && itemsQfree b)
  | [], b => by simp [itemsQfree]
  | it :: a, b => by
    simp [itemsQfree, itemsQfree_append a b, Bool.and_assoc]

theorem exprStep_wfb (e : Expr) (op : Operand) (he : e.wfb = true)
    (hop : ∀ s, op = Operand.oexpr s → s.wfb = true) : (exprStep e op).wfb = true := by
  cases e with
  | mk cs ts bp fn =>
    simp only [Expr.wfb, Bool.and_eq_true, beq_iff_eq] at he
    cases op with
    | oexpr s =>
      have hs : s.wfb = true := hop s rfl
      simp [exprStep, Expr.wfb, itemsWfb_append, itemsWfb, EItem.wfb, he.1, he.2,
        EItem.litParams, hs]
    | ocol c =>
      simp [exprStep, Expr.wfb, itemsWfb_append, itemsWfb, EItem.wfb, he.1, he.2,
        EItem.litParams]
    | olit v =>
      simp [exprStep, Expr.wfb, itemsWfb_append, itemsWfb, EItem.wfb, he.1, he.2,
        EItem.litParams]

/-- The `?`-freeness of an operand handed to `Expression`. -/
def Operand.qfreeb : Operand → Bool
  | .oexpr e => e.qfreeb
  | .ocol c => countQ c.render == 0
  | .olit _ => true

theorem exprStep_qfreeb (e : Expr) (op : Operand) (he : e.qfreeb = true)
    (hop : op.qfreeb = true) : (exprStep e op).qfreeb = true := by
  cases e with
  | mk cs ts bp fn =>
    simp only [Expr.qfreeb, Bool.and_eq_true] at he
    cases op with
    | oexpr s =>
      simp only [Operand.qfreeb] at hop
      simp [exprStep, Expr.qfreeb, itemsQfree_append, itemsQfree, EItem.qfreeb,
        he.1, he.2, hop]
    | ocol c =>
      simp only [Operand.qfreeb] at hop
      simp [exprStep, Expr.qfreeb, itemsQfree_append, itemsQfree, EItem.qfreeb,
        he.1, he.2, hop]
    | olit v =>
      simp [exprStep, Expr.qfreeb, itemsQfree_append, itemsQfree, EItem.qfreeb,
        he.1, he.2]

theorem foldl_exprStep_wfb : ∀ (ops : List Operand) (e : Expr), e.wfb = true →
    (∀ s, Operand.oexpr s ∈ ops → s.wfb = true) → (ops.foldl exprStep e).wfb = true
  | [], e, he, _ => he
  | op :: ops, e, he, h => by
    have hstep : (exprStep e op).wfb = true :=
      exprStep_wfb e op he (fun s hs => h s (by rw [← hs]; exact List.mem_cons_self _ _))
    exact foldl_exprStep_wfb ops _ hstep (fun s hs => h s (List.mem_cons_of_mem _ hs))

theorem foldl_exprStep_qfreeb : ∀ (ops : List Operand) (e : Expr), e.qfreeb = true →
    (∀ op ∈ ops, Operand.qfreeb op = true) → (ops.foldl exprStep e).qfreeb = true
  | [], e, he, _ => he
  | op :: ops, e, he, h => by
    have hstep : (exprStep e op).qfreeb = true :=
      exprStep_qfreeb e op he (h op (List.mem_cons_self _ _))
    exact foldl_exprStep_qfreeb ops _ hstep (fun o ho => h o (List.mem_cons_of_mem _ ho))

/-- Every expression built by the `Expression` constructor from
well-formed nested expressions is well-formed. -/
theorem Expression_wfb (ops : List Operand) (fn : StrFn)
    (h : ∀ s, Operand.oexpr s ∈ ops → s.wfb = true) : (Expression ops fn).wfb = true :=
  foldl_exprStep_wfb ops _ rfl h

theorem Expression_qfreeb (ops : List Operand) (fn : StrFn) (hfn : fn.qfreeb = true)
    (h : ∀ op ∈ ops, Operand.qfreeb op = true) : (Expression ops fn).qfreeb = true :=
  foldl_exprStep_qfreeb ops _ (by simp [Expr.qfreeb, itemsQfree, hfn]) h

theorem foldl_append_column (cols : List SelEntry) (q : Query) :
    cols.foldl Query.append_column q = { q with columns := q.columns ++ cols } := by
  induction cols generalizing q with
  | nil => simp
  | cons e cols ih =>
    show cols.foldl Query.append_column (q.append_column e) = _
    rw [ih]
    simp [Query.append_column]

theorem Query.new_eq (cols : List SelEntry) :
    Query.new cols = { Query.empty with columns := cols } := by
  rw [Query.new, foldl_append_column]
  rfl

theorem foldl_filter_fields (es : List Expr) (q : Query) :
    (es.foldl Query.filter q).filters = q.filters ++ es
    ∧ (es.foldl Query.filter q).bind_params
        = q.bind_params ++ (es.map Expr.bind_params).flatten
    ∧ (es.foldl Query.filter q).columns = q.columns
    ∧ (es.foldl Query.filter q).groups = q.groups
    ∧ (es.foldl Query.filter q).order = q.order
    ∧ (es.foldl Query.filter q).follow_refs = q.follow_refs := by
  induction es generalizing q with
  | nil => simp
  | cons e es ih =>
    have h := ih (q.filter e)
    show (es.foldl Query.filter (q.filter e)).filters = _ ∧ _
    simp only [Query.filter] at h
    simp [h.1, h.2.1, h.2.2.1, h.2.2.2.1, h.2.2.2.2.1, h.2.2.2.2.2, Query.filter]

theorem countQ_joinSep_exprs (sep : String) (hsep : countQ sep = 0) (es : List Expr)
    (h : ∀ e ∈ es, e.wfb = true ∧ e.qfreeb = true) :
    countQ (joinSep sep (es.map Expr.toString))
      = ((es.map Expr.bind_params).flatten).length := by
  rw [countQ_joinSep sep hsep, List.map_map, List.length_flatten, List.map_map]
  apply congrArg
  apply List.map_congr_left
  intro e he
  exact countQ_toString e (h e he).1 (h e he).2

theorem fill_joinSep_exprs (sep : String) (hsep : countQ sep = 0) : ∀ es : List Expr,
    (∀ e ∈ es, e.wfb = true ∧ e.qfreeb = true) →
    fillStr (joinSep sep (es.map Expr.toString)) ((es.map Expr.bind_params).flatten)
      = joinSep sep (es.map Expr.inlineRender)
  | [], _ => rfl
  | [e], h => by
    have he := h e (List.mem_cons_self _ _)
    simp only [List.map_cons, List.map_nil, joinSep, List.flatten_cons, List.flatten_nil,
      List.append_nil]
    exact fill_toString e he.1 he.2
  | e :: e2 :: rest, h => by
    have he := h e (List.mem_cons_self _ _)
    have h1 : countQ (Expr.toString e) = e.bind_params.length :=
      countQ_toString e he.1 he.2
    have h2 : countQ (Expr.toString e ++ sep) = e.bind_params.length := by
      rw [countQ_append, h1, hsep]
      omega
    have htail : ∀ x ∈ e2 :: rest, x.wfb = true ∧ x.qfreeb = true :=
      fun x hx => h x (List.mem_cons_of_mem _ hx)
    simp only [List.map_cons, List.flatten_cons]
    rw [joinSep_cons_of_ne sep _ _ (List.cons_ne_nil _ _),
      joinSep_cons_of_ne sep _ _ (List.cons_ne_nil _ _)]
    rw [show (Expr.toString e2 :: List.map Expr.toString rest)
        = List.map Expr.toString (e2 :: rest) from rfl,
      show (Expr.inlineRender e2 :: List.map Expr.inlineRender rest)
        = List.map Expr.inlineRender (e2 :: rest) from rfl,
      show e2.bind_params ++ (List.map Expr.bind_params rest).flatten
        = (List.map Expr.bind_params (e2 :: rest)).flatten from by simp]
    rw [fillStr_append, h2, List.take_left, List.drop_left,
      fillStr_append, h1, List.take_length, List.drop_length, fillStr_nil_ps,
      fill_toString e he.1 he.2,
      fill_joinSep_exprs sep hsep (e2 :: rest) htail]

/-- C1.  For every Query and every sequence of `filter` calls whose
expressions are built by the engine's constructors (well-formed) and
whose identifiers contain no literal `?`: every literal operand became
exactly one `?` placeholder and exactly one appended bind parameter, so
the rendered WHERE clause has as many `?` placeholders as there are
bind parameters, and substituting the bind parameters into the
placeholders in left-to-right order reproduces each literal at the
position of its own placeholder (the inline rendering). -/
theorem filter_placeholder_bind_correspondence
    (cols : List SelEntry) (es : List Expr)
    (h : ∀ e ∈ es, e.wfb = true ∧ e.qfreeb = true) :
    countQ (es.foldl Query.filter (Query.new cols)).whereClause
        = (es.foldl Query.filter (Query.new cols)).bind_params.length
    ∧ fillStr (es.foldl Query.filter (Query.new cols)).whereClause
          (es.foldl Query.filter (Query.new cols)).bind_params
        = joinSep " AND " (es.map Expr.inlineRender) := by
  have hf := foldl_filter_fields es (Query.new cols)
  have hnew := Query.new_eq cols
  have hfil : (es.foldl Query.filter (Query.new cols)).filters = es := by
    rw [hf.1, hnew]
    rfl
  have hbp : (es.foldl Query.filter (Query.new cols)).bind_params
      = (es.map Expr.bind_params).flatten := by
    rw [hf.2.1, hnew]
    rfl
  have hsep : countQ (" AND " : String) = 0 := rfl
  constructor
  · rw [Query.whereClause, hfil, hbp, countQ_joinSep_exprs " AND " hsep es h]
  · rw [Query.whereClause, hfil, hbp, fill_joinSep_exprs " AND " hsep es h]

/-- Witness for C1 at the sample query: two filters,
`items.name is 'John'` and `items.name like 'J%'`. -/
theorem filter_placeholder_bind_correspondence_witness :
    countQ ([Column.cmp ⟨"name", ⟨0, "items"⟩⟩ (.olit "John") none,
          Column.cmp ⟨"name", ⟨0, "items"⟩⟩ (.olit "J") (some "starts-with")].foldl
          Query.filter (Query.new [.tbl itemsTable])).whereClause
        = ([Column.cmp ⟨"name", ⟨0, "items"⟩⟩ (.olit "John") none,
          Column.cmp ⟨"name", ⟨0, "items"⟩⟩ (.olit "J") (some "starts-with")].foldl
          Query.filter (Query.new [.tbl itemsTable])).bind_params.length
    ∧ fillStr ([Column.cmp ⟨"name", ⟨0, "items"⟩⟩ (.olit "John") none,
          Column.cmp ⟨"name", ⟨0, "items"⟩⟩ (.olit "J") (some "starts-with")].foldl
          Query.filter (Query.new [.tbl itemsTable])).whereClause
          ([Column.cmp ⟨"name", ⟨0, "items"⟩⟩ (.olit "John") none,
          Column.cmp ⟨"name", ⟨0, "items"⟩⟩ (.olit "J") (some "starts-with")].foldl
          Query.filter (Query.new [.tbl itemsTable])).bind_params
        = joinSep " AND " ([Column.cmp ⟨"name", ⟨0, "items"⟩⟩ (.olit "John") none,
          Column.cmp ⟨"name", ⟨0, "items"⟩⟩ (.olit "J") (some "starts-with")].map
          Expr.inlineRender) :=
  filter_placeholder_bind_correspondence [.tbl itemsTable]
    [Column.cmp ⟨"name", ⟨0, "items"⟩⟩ (.olit "John") none,
      Column.cmp ⟨"name", ⟨0, "items"⟩⟩ (.olit "J") (some "starts-with")]
    (by decide)

/-- C2.  The end-to-end sample: selecting `Table('items', ['name'])`,
filtering by the comparison of its `name` column against the literal
`'John'` with the default operator, and rendering, yields exactly the
SELECT/FROM/WHERE text with one placeholder and the bind-parameter list
`['John']`. -/
theorem end_to_end_items_query :
    itemsTable.findCol "name" = some (Column.mk "name" ⟨0, "items"⟩)
    ∧ ((Query.new [.tbl itemsTable]).filter
          ((Column.mk "name" ⟨0, "items"⟩).cmp (.olit "John") none)).render.1
        = "SELECT items.id, items.name\nFROM items\nWHERE items.name is ?"
    ∧ ((Query.new [.tbl itemsTable]).filter
          ((Column.mk "name" ⟨0, "items"⟩).cmp (.olit "John") none)).render.2.bind_params
        = ["John"] := by decide

theorem mem_addTable_self (ts : List TableRef) (t : TableRef) : t ∈ addTable ts t := by
  rw [addTable]
  split
  · assumption
  · exact List.mem_append_right _ (List.mem_singleton.mpr rfl)

theorem mem_addTable_mono (ts : List TableRef) (t x : TableRef) (h : x ∈ ts) :
    x ∈ addTable ts t := by
  rw [addTable]
  split
  · exact h
  · exact List.mem_append_left _ h

theorem mem_addTables_mono (ns : List TableRef) : ∀ (ts : List TableRef) (x : TableRef),
    x ∈ ts → x ∈ addTables ts ns := by
  induction ns with
  | nil => exact fun ts x h => h
  | cons n ns ih =>
    intro ts x h
    exact ih (addTable ts n) x (mem_addTable_mono ts n x h)

/-- The implicit join filter carries no bind parameters. -/
theorem joinIdFilter_bind_params (o : TableRef) (t : Table) :
    (joinIdFilter o t).bind_params = [] := rfl

/-- The columns selected at render time, per the specification: a bare
column is included directly; a table is expanded to its columns, with
foreign columns (owning table different from the selected table)
included only when following references. -/
def selectedColumns (fr : Bool) (cols : List SelEntry) : List Column :=
  cols.flatMap
    (fun entry =>
      match entry with
      | .tbl t =>
        if fr then t.c.map Prod.snd
        else (t.c.filter (fun p => p.2.table == t.ref)).map Prod.snd
      | .col c => [c])

/-- The implicit join filters a rendering adds for one selected table:
one per foreign column, in column order. -/
def joinFiltersOf (t : Table) : List Expr :=
  (t.c.filter (fun p => !(p.2.table == t.ref))).map (fun p => joinIdFilter p.2.table t)

/-- All implicit join filters a rendering with `follow_refs` adds, in
select-list order. -/
def addedFilters (cols : List SelEntry) : List Expr :=
  cols.flatMap
    (fun entry =>
      match entry with
      | .tbl t => joinFiltersOf t
      | .col _ => [])

theorem foldl_expandStep_false (t : Table) : ∀ (l : List (String × Column)) (acc : List Column × Query),
    l.foldl (expandStep false t) acc
      = (acc.1 ++ (l.filter (fun p => p.2.table == t.ref)).map Prod.snd, acc.2)
  | [], acc => by simp
  | p :: l, acc => by
    by_cases h : p.2.table = t.ref
    · have hstep : expandStep false t acc p = (acc.1 ++ [p.2], acc.2) := by
        simp [expandStep, h]
      show (l.foldl (expandStep false t) (expandStep false t acc p)) = _
      rw [hstep, foldl_expandStep_false t l _]
      simp [List.filter_cons, h]
    · have hstep : expandStep false t acc p = acc := by
        simp [expandStep, h]
      show (l.foldl (expandStep false t) (expandStep false t acc p)) = _
      rw [hstep, foldl_expandStep_false t l acc]
      simp [List.filter_cons, h]

theorem foldl_entryStep_false : ∀ (cols : List SelEntry) (acc : List Column × Query),
    cols.foldl (entryStep false) acc = (acc.1 ++ selectedColumns false cols, acc.2)
  | [], acc => by simp [selectedColumns]
  | entry :: cols, acc => by
    show cols.foldl (entryStep false) (entryStep false acc entry) = _
    rw [foldl_entryStep_false cols _]
    cases entry with
    | tbl t =>
      rw [entryStep, foldl_expandStep_false t t.c acc]
      simp [selectedColumns]
    | col c =>
      rw [entryStep]
      simp [selectedColumns]

/-- Rendering with `follow_refs` unset performs no side effect on the
query and selects exactly the non-foreign columns. -/
theorem expand_no_follow (q : Query) (h : q.follow_refs = false) :
    q.expand = (selectedColumns false q.columns, q) := by
  rw [Query.expand, h, foldl_entryStep_false q.columns ([], q)]
  simp

theorem foldl_expandStep_true (t : Table) : ∀ (l : List (String × Column)) (acc : List Column × Query),
    (l.foldl (expandStep true t) acc).1 = acc.1 ++ l.map Prod.snd
    ∧ (l.foldl (expandStep true t) acc).2.filters
        = acc.2.filters
          ++ (l.filter (fun p => !(p.2.table == t.ref))).map (fun p => joinIdFilter p.2.table t)
    ∧ (l.foldl (expandStep true t) acc).2.bind_params = acc.2.bind_params
    ∧ (l.foldl (expandStep true t) acc).2.columns = acc.2.columns
    ∧ (l.foldl (expandStep true t) acc).2.groups = acc.2.groups
    ∧ (l.foldl (expandStep true t) acc).2.order = acc.2.order
    ∧ (l.foldl (expandStep true t) acc).2.follow_refs = acc.2.follow_refs
    ∧ (∀ x, x ∈ acc.2.tables → x ∈ (l.foldl (expandStep true t) acc).2.tables)
    ∧ (∀ p ∈ l, p.2.table ≠ t.ref → p.2.table ∈ (l.foldl (expandStep true t) acc).2.tables)
  | [], acc => by simp
  | p :: l, acc => by
    by_cases h : p.2.table = t.ref
    · have hstep : expandStep true t acc p = (acc.1 ++ [p.2], acc.2) := by
        simp [expandStep, h]
      have ih := foldl_expandStep_true t l (acc.1 ++ [p.2], acc.2)
      rw [List.foldl_cons, hstep]
      refine ⟨?_, ?_, ih.2.2.1, ih.2.2.2.1, ih.2.2.2.2.1, ih.2.2.2.2.2.1,
        ih.2.2.2.2.2.2.1, ih.2.2.2.2.2.2.2.1, ?_⟩
      · rw [ih.1]
        simp
      · rw [ih.2.1]
        simp [List.filter_cons, h]
      · intro p' hp' hne
        rcases List.mem_cons.mp hp' with hp' | hp'
        · exact absurd (hp' ▸ h) hne
        · exact ih.2.2.2.2.2.2.2.2 p' hp' hne
    · have hstep : expandStep true t acc p
          = (acc.1 ++ [p.2], (acc.2.add_table p.2.table).filter (joinIdFilter p.2.table t)) := by
        simp [expandStep, h]
      have ih := foldl_expandStep_true t l
        (acc.1 ++ [p.2], (acc.2.add_table p.2.table).filter (joinIdFilter p.2.table t))
      rw [List.foldl_cons, hstep]
      have hq2f : ((acc.2.add_table p.2.table).filter (joinIdFilter p.2.table t)).filters
          = acc.2.filters ++ [joinIdFilter p.2.table t] := rfl
      have hq2b : ((acc.2.add_table p.2.table).filter (joinIdFilter p.2.table t)).bind_params
          = acc.2.bind_params := by
        show acc.2.bind_params ++ (joinIdFilter p.2.table t).bind_params = acc.2.bind_params
        rw [joinIdFilter_bind_params, List.append_nil]
      have hq2mem : ∀ x, x ∈ acc.2.tables →
          x ∈ ((acc.2.add_table p.2.table).filter (joinIdFilter p.2.table t)).tables := by
        intro x hx
        exact mem_addTables_mono _ _ _ (mem_addTable_mono _ _ _ hx)
      have hq2self : p.2.table
          ∈ ((acc.2.add_table p.2.table).filter (joinIdFilter p.2.table t)).tables :=
        mem_addTables_mono _ _ _ (mem_addTable_self _ _)
      refine ⟨?_, ?_, ?_, ih.2.2.2.1, ih.2.2.2.2.1, ih.2.2.2.2.2.1,
        ih.2.2.2.2.2.2.1, ?_, ?_⟩
      · rw [ih.1]
        simp
      · rw [ih.2.1, hq2f]
        simp [List.filter_cons, h]
      · rw [ih.2.2.1, hq2b]
      · intro x hx
        exact ih.2.2.2.2.2.2.2.1 x (hq2mem x hx)
      · intro p' hp' hne
        rcases List.mem_cons.mp hp' with hp' | hp'
        · subst hp'
          exact ih.2.2.2.2.2.2.2.1 _ hq2self
        · exact ih.2.2.2.2.2.2.2.2 p' hp' hne

theorem foldl_entryStep_true : ∀ (cols : List SelEntry) (acc : List Column × Query),
    (cols.foldl (entryStep true) acc).1 = acc.1 ++ selectedColumns true cols
    ∧ (cols.foldl (entryStep true) acc).2.filters = acc.2.filters ++ addedFilters cols
    ∧ (cols.foldl (entryStep true) acc).2.bind_params = acc.2.bind_params
    ∧ (cols.foldl (entryStep true) acc).2.columns = acc.2.columns
    ∧ (cols.foldl (entryStep true) acc).2.groups = acc.2.groups
    ∧ (cols.foldl (entryStep true) acc).2.order = acc.2.order
    ∧ (cols.foldl (entryStep true) acc).2.follow_refs = acc.2.follow_refs
    ∧ (∀ x, x ∈ acc.2.tables → x ∈ (cols.foldl (entryStep true) acc).2.tables)
    ∧ (∀ t p, SelEntry.tbl t ∈ cols → p ∈ t.c → p.2.table ≠ t.ref →
        p.2.table ∈ (cols.foldl (entryStep true) acc).2.tables)
  | [], acc => by simp [selectedColumns, addedFilters]
  | entry :: cols, acc => by
    rw [List.foldl_cons]
    cases entry with
    | tbl t =>
      have hstep := foldl_expandStep_true t t.c acc
      have ih := foldl_entryStep_true cols (entryStep true acc (.tbl t))
      have hE : entryStep true acc (.tbl t) = t.c.foldl (expandStep true t) acc := rfl
      refine ⟨?_, ?_, ?_, ?_, ?_, ?_, ?_, ?_, ?_⟩
      · rw [ih.1, hE, hstep.1]
        simp [selectedColumns]
      · rw [ih.2.1, hE, hstep.2.1]
        simp [addedFilters, joinFiltersOf]
      · rw [ih.2.2.1, hE, hstep.2.2.1]
      · rw [ih.2.2.2.1, hE, hstep.2.2.2.1]
      · rw [ih.2.2.2.2.1, hE, hstep.2.2.2.2.1]
      · rw [ih.2.2.2.2.2.1, hE, hstep.2.2.2.2.2.1]
      · rw [ih.2.2.2.2.2.2.1, hE, hstep.2.2.2.2.2.2.1]
      · intro x hx
        exact ih.2.2.2.2.2.2.2.1 x (hE ▸ hstep.2.2.2.2.2.2.2.1 x hx)
      · intro t0 p ht0 hp hne
        rcases List.mem_cons.mp ht0 with ht0 | ht0
        · cases ht0
          exact ih.2.2.2.2.2.2.2.1 _ (hE ▸ hstep.2.2.2.2.2.2.2.2 p hp hne)
        · exact ih.2.2.2.2.2.2.2.2 t0 p ht0 hp hne
    | col c =>
      have ih := foldl_entryStep_true cols (entryStep true acc (.col c))
      have hE : entryStep true acc (.col c) = (acc.1 ++ [c], acc.2) := rfl
      refine ⟨?_, ?_, ?_, ?_, ?_, ?_, ?_, ?_, ?_⟩
      · rw [ih.1, hE]
        simp [selectedColumns]
      · rw [ih.2.1, hE]
        simp [addedFilters]
      · rw [ih.2.2.1, hE]
      · rw [ih.2.2.2.1, hE]
      · rw [ih.2.2.2.2.1, hE]
      · rw [ih.2.2.2.2.2.1, hE]
      · rw [ih.2.2.2.2.2.2.1, hE]
      · intro x hx
        exact ih.2.2.2.2.2.2.2.1 x (by rw [hE]; exact hx)
      · intro t0 p ht0 hp hne
        rcases List.mem_cons.mp ht0 with ht0 | ht0
        · exact absurd ht0 (by simp)
        · exact ih.2.2.2.2.2.2.2.2 t0 p ht0 hp hne

/-- The effect of rendering with `follow_refs` set: every column of a
selected table (foreign or not) is selected; one implicit join filter
per foreign column is appended, in order; every foreign column's owning
table ends up in the table list.  Bind parameters, the select-entry
list, GROUP BY, ORDER BY and the flag are untouched. -/
theorem expand_follow (q : Query) (h : q.follow_refs = true) :
    (q.expand).1 = selectedColumns true q.columns
    ∧ (q.expand).2.filters = q.filters ++ addedFilters q.columns
    ∧ (q.expand).2.bind_params = q.bind_params
    ∧ (q.expand).2.columns = q.columns
    ∧ (q.expand).2.groups = q.groups
    ∧ (q.expand).2.order = q.order
    ∧ (q.expand).2.follow_refs = q.follow_refs
    ∧ (∀ x, x ∈ q.tables → x ∈ (q.expand).2.tables)
    ∧ (∀ t p, SelEntry.tbl t ∈ q.columns → p ∈ t.c → p.2.table ≠ t.ref →
        p.2.table ∈ (q.expand).2.tables) := by
  have := foldl_entryStep_true q.columns ([], q)
  rw [Query.expand, h]
  simpa [h] using this

def childTable : Table := mkTable 1 "child" [] none []

/-- A table whose column map contains a foreign (virtual) column owned
by another table, as installed by external schema code
(`tbl.c[name] = other_table.c[col]`). -/
def parentTable : Table :=
  { mkTable 2 "parent" [] none [] with
      c := assocSet (mkTable 2 "parent" [] none []).c "ref" ⟨"id", ⟨1, "child"⟩⟩ }

/-- C3 counterexample: for the concrete parent table exposing the child
table's id column, rendering with `follow_references` produces the
implicit join filter with the `is` operator; the rendered text is not
the claimed `child.id = parent.id` form. -/
theorem follow_references_join_renders_is :
    (((Query.new [.tbl parentTable]).follow_references).render).1
      = "SELECT parent.id, child.id\nFROM child, parent\nWHERE child.id is parent.id"
    ∧ (((Query.new [.tbl parentTable]).follow_references).render).1
      ≠ "SELECT parent.id, child.id\nFROM child, parent\nWHERE child.id = parent.id" := by
  decide

/-- C3 (amended).  Selecting a table without `follow_references`
excludes foreign columns from the select list and has no side effect;
with `follow_references` every column is selected, exactly one implicit
join filter per foreign column is added (in column order), each foreign
column's owning table joins the table list, and the join filter renders
as `owning_table.id is selected_table.id` (the engine's `is` equality,
not the `=` operator). -/
theorem follow_references_expansion (t : Table) :
    ((Query.new [.tbl t]).expand).1
        = (t.c.filter (fun p => p.2.table == t.ref)).map Prod.snd
    ∧ ((Query.new [.tbl t]).expand).2 = Query.new [.tbl t]
    ∧ (((Query.new [.tbl t]).follow_references).expand).1 = t.c.map Prod.snd
    ∧ (((Query.new [.tbl t]).follow_references).expand).2.filters
        = (t.c.filter (fun p => !(p.2.table == t.ref))).map (fun p => joinIdFilter p.2.table t)
    ∧ (∀ p ∈ t.c, p.2.table ≠ t.ref →
        p.2.table ∈ (((Query.new [.tbl t]).follow_references).expand).2.tables)
    ∧ ∀ o : TableRef, (joinIdFilter o t).toString
        = o.tbl_name ++ ".id is " ++ Column.render t.idCol := by
  have hnew := Query.new_eq [SelEntry.tbl t]
  have hcols0 : (Query.new [SelEntry.tbl t]).columns = [SelEntry.tbl t] := by
    rw [hnew]
  have hfr : (Query.new [SelEntry.tbl t]).follow_refs = false := by
    rw [hnew]
    rfl
  have hnf := expand_no_follow _ hfr
  have hfr2 : ((Query.new [SelEntry.tbl t]).follow_references).follow_refs = true := rfl
  have hf := expand_follow _ hfr2
  have hcols : ((Query.new [SelEntry.tbl t]).follow_references).columns = [SelEntry.tbl t] := by
    rw [Query.follow_references]
    exact hcols0
  have hfil : ((Query.new [SelEntry.tbl t]).follow_references).filters = [] := by
    rw [Query.follow_references, hnew]
    rfl
  refine ⟨?_, ?_, ?_, ?_, ?_, ?_⟩
  · rw [hnf]
    show selectedColumns false (Query.new [SelEntry.tbl t]).columns = _
    rw [hcols0]
    simp [selectedColumns]
  · rw [hnf]
  · rw [hf.1, hcols]
    simp [selectedColumns]
  · rw [hf.2.1, hfil, hcols]
    simp [addedFilters, joinFiltersOf]
  · intro p hp hne
    exact hf.2.2.2.2.2.2.2.2 t p (by rw [hcols]; exact List.mem_cons_self _ _) hp hne
  · intro o
    have hred : (joinIdFilter o t).toString
        = ((o.tbl_name ++ ".") ++ "id") ++ " is " ++ Column.render t.idCol := rfl
    rw [hred]
    simp only [String.append_assoc]
    rfl

/-- A query whose rendering performs no reference expansion: either the
follow-references flag is unset, or no selected table exposes a foreign
column. -/
def Query.noRefExpansion (q : Query) : Prop :=
  q.follow_refs = false
    ∨ ∀ t p, SelEntry.tbl t ∈ q.columns → p ∈ t.c → p.2.table = t.ref

theorem foldl_expandStep_all_own (fr : Bool) (t : Table) :
    ∀ (l : List (String × Column)) (acc : List Column × Query),
    (∀ p ∈ l, p.2.table = t.ref) → (l.foldl (expandStep fr t) acc).2 = acc.2
  | [], _, _ => rfl
  | p :: l, acc, h => by
    have hp := h p (List.mem_cons_self _ _)
    have hstep : expandStep fr t acc p = (acc.1 ++ [p.2], acc.2) := by
      simp [expandStep, hp]
    rw [List.foldl_cons, hstep]
    exact foldl_expandStep_all_own fr t l _ (fun p' hp' => h p' (List.mem_cons_of_mem _ hp'))

theorem foldl_entryStep_all_own (fr : Bool) :
    ∀ (cols : List SelEntry) (acc : List Column × Query),
    (∀ t p, SelEntry.tbl t ∈ cols → p ∈ t.c → p.2.table = t.ref) →
    (cols.foldl (entryStep fr) acc).2 = acc.2
  | [], _, _ => rfl
  | entry :: cols, acc, h => by
    rw [List.foldl_cons]
    have htail : ∀ t p, SelEntry.tbl t ∈ cols → p ∈ t.c → p.2.table = t.ref :=
      fun t p ht hp => h t p (List.mem_cons_of_mem _ ht) hp
    have hacc : (entryStep fr acc entry).2 = acc.2 := by
      cases entry with
      | tbl t =>
        exact foldl_expandStep_all_own fr t t.c acc
          (fun p hp => h t p (List.mem_cons_self _ _) hp)
      | col c => rfl
    rw [foldl_entryStep_all_own fr cols _ htail, hacc]

/-- A rendering that performs no reference expansion leaves the query
state untouched. -/
theorem expand_state_id (q : Query) (h : q.noRefExpansion) : (q.expand).2 = q := by
  cases h with
  | inl h => rw [expand_no_follow q h]
  | inr h =>
    rw [Query.expand]
    exact foldl_entryStep_all_own q.follow_refs q.columns ([], q) h

/-- C4 counterexample: rendering the follow-references query over the
parent table twice yields two different texts — `Query.toString`
mutates the query, so the second rendering contains the implicit join
filter twice. -/
theorem render_not_idempotent_follow_refs :
    (((Query.new [.tbl parentTable]).follow_references).render).1
      = "SELECT parent.id, child.id\nFROM child, parent\nWHERE child.id is parent.id"
    ∧ ((((Query.new [.tbl parentTable]).follow_references).render).2.render).1
      = "SELECT parent.id, child.id\nFROM child, parent\nWHERE child.id is parent.id AND child.id is parent.id"
    ∧ ((((Query.new [.tbl parentTable]).follow_references).render).2.render).1
      ≠ (((Query.new [.tbl parentTable]).follow_references).render).1 := by
  decide

/-- C4 (amended).  Rendering is idempotent for every query whose
rendering performs no reference expansion (follow-references unset, or
no selected table holds a foreign column): the second rendering yields
the identical text and the identical bind-parameter list.  (When
reference expansion does fire, each rendering appends the implicit join
filters again, as the counterexample shows.) -/
theorem render_idempotent_without_expansion (q : Query) (h : q.noRefExpansion) :
    (((q.render).2).render).1 = (q.render).1
    ∧ (((q.render).2).render).2.bind_params = ((q.render).2).bind_params := by
  have h2 : (q.render).2 = q := by
    show (q.expand).2 = q
    exact expand_state_id q h
  rw [h2]
  exact ⟨rfl, congrArg Query.bind_params h2⟩

/-- Witness for C4 (amended) at the end-to-end sample query. -/
theorem render_idempotent_without_expansion_witness :
    ((((Query.new [.tbl itemsTable]).filter
          ((Column.mk "name" ⟨0, "items"⟩).cmp (.olit "John") none)).render).2.render).1
      = (((Query.new [.tbl itemsTable]).filter
          ((Column.mk "name" ⟨0, "items"⟩).cmp (.olit "John") none)).render).1
    ∧ ((((Query.new [.tbl itemsTable]).filter
          ((Column.mk "name" ⟨0, "items"⟩).cmp (.olit "John") none)).render).2.render).2.bind_params
      = ((((Query.new [.tbl itemsTable]).filter
          ((Column.mk "name" ⟨0, "items"⟩).cmp (.olit "John") none)).render).2).bind_params :=
  render_idempotent_without_expansion _ (Or.inl (by decide))

/-- C5: code evaluated at the failing input.  A query selecting the
bare column `items.name` keeps an empty required-table set — the
`_add_table` calls in `append_column` are commented out — and renders
with no FROM clause, although the column touches the `items` table. -/
theorem append_column_does_not_register_table :
    (Query.new [.col (Column.mk "name" ⟨0, "items"⟩)]).tables = []
    ∧ ((Query.new [.col (Column.mk "name" ⟨0, "items"⟩)]).render).1 = "SELECT items.name"
    ∧ ((Query.new [.col (Column.mk "name" ⟨0, "items"⟩)]).render).2.tables = [] := by
  decide

/-- C7.  The variadic `and`/`or` composition of two expressions renders
as the parenthesised connective join of the two renderings, and its
bind-parameter list is the concatenation of the two lists in order. -/
theorem and_or_two_expressions (a b : Expr) :
    (sqlAnd [.oexpr a, .oexpr b]).toString
        = "(" ++ a.toString ++ " AND " ++ b.toString ++ ")"
    ∧ (sqlAnd [.oexpr a, .oexpr b]).bind_params = a.bind_params ++ b.bind_params
    ∧ (sqlOr [.oexpr a, .oexpr b]).toString
        = "(" ++ a.toString ++ " OR " ++ b.toString ++ ")"
    ∧ (sqlOr [.oexpr a, .oexpr b]).bind_params = a.bind_params ++ b.bind_params := by
  refine ⟨?_, rfl, ?_, rfl⟩
  · have hred : (sqlAnd [.oexpr a, .oexpr b]).toString
        = ("(" ++ ((a.toString ++ " AND ") ++ b.toString)) ++ ")" := rfl
    rw [hred]
    simp only [String.append_assoc]
  · have hred : (sqlOr [.oexpr a, .oexpr b]).toString
        = ("(" ++ ((a.toString ++ " OR ") ++ b.toString)) ++ ")" := rfl
    rw [hred]
    simp only [String.append_assoc]

theorem addTables_disjoint : ∀ (ts acc : List TableRef), ts.Nodup →
    (∀ x ∈ ts, x ∉ acc) → addTables acc ts = acc ++ ts
  | [], acc, _, _ => by simp [addTables]
  | t :: ts, acc, hnd, hdisj => by
    have ht : t ∉ acc := hdisj t (List.mem_cons_self _ _)
    have hstep : addTable acc t = acc ++ [t] := by
      rw [addTable, if_neg ht]
    show addTables (addTable acc t) ts = _
    rw [hstep, addTables_disjoint ts (acc ++ [t]) (List.Nodup.of_cons hnd)]
    · simp
    · intro x hx
      simp only [List.mem_append, List.mem_singleton]
      rintro (hxa | hxt)
      · exact hdisj x (List.mem_cons_of_mem _ hx) hxa
      · exact (List.Nodup.not_mem (hxt ▸ hnd)) hx

/-- C10.  Zero-argument `and`/`or` renders the degenerate `()` with no
bind parameters and no tables; one-argument `and`/`or` wraps the single
expression in parentheses, adopting its bind parameters and (for a
duplicate-free table list, as every constructed expression has) its
table list unchanged. -/
theorem and_or_degenerate (e : Expr) (h : e.tables.Nodup) :
    (sqlAnd []).toString = "()"
    ∧ (sqlAnd []).bind_params = []
    ∧ (sqlAnd []).tables = []
    ∧ (sqlOr []).toString = "()"
    ∧ (sqlOr []).bind_params = []
    ∧ (sqlOr []).tables = []
    ∧ (sqlAnd [.oexpr e]).toString = "(" ++ e.toString ++ ")"
    ∧ (sqlAnd [.oexpr e]).bind_params = e.bind_params
    ∧ (sqlAnd [.oexpr e]).tables = e.tables
    ∧ (sqlOr [.oexpr e]).toString = "(" ++ e.toString ++ ")"
    ∧ (sqlOr [.oexpr e]).bind_params = e.bind_params
    ∧ (sqlOr [.oexpr e]).tables = e.tables := by
  have htab : addTables [] e.tables = e.tables := by
    rw [addTables_disjoint e.tables [] h (fun x _ hx => (List.not_mem_nil x) hx)]
    simp
  exact ⟨rfl, rfl, rfl, rfl, rfl, rfl, rfl, rfl, htab, rfl, rfl, htab⟩

/-- Witness for C10 at the sample comparison expression. -/
theorem and_or_degenerate_witness :
    (Expression [.ocol ⟨"name", ⟨0, "items"⟩⟩, .olit "John"] (.joinOp "is")).tables.Nodup
    ∧ (sqlAnd [.oexpr (Expression [.ocol ⟨"name", ⟨0, "items"⟩⟩, .olit "John"] (.joinOp "is"))]).toString
      = "(" ++ (Expression [.ocol ⟨"name", ⟨0, "items"⟩⟩, .olit "John"] (.joinOp "is")).toString ++ ")"
    ∧ (sqlAnd [.oexpr (Expression [.ocol ⟨"name", ⟨0, "items"⟩⟩, .olit "John"] (.joinOp "is"))]).tables
      = (Expression [.ocol ⟨"name", ⟨0, "items"⟩⟩, .olit "John"] (.joinOp "is")).tables :=
  ⟨by decide,
    (and_or_degenerate (Expression [.ocol ⟨"name", ⟨0, "items"⟩⟩, .olit "John"] (.joinOp "is"))
      (by decide)).2.2.2.2.2.2.1,
    (and_or_degenerate (Expression [.ocol ⟨"name", ⟨0, "items"⟩⟩, .olit "John"] (.joinOp "is"))
      (by decide)).2.2.2.2.2.2.2.2.1⟩

/-- C6.  Operator translation of `Column.cmp` on a literal: `contains`
renders the SQL LIKE operator (lowercase `like` in the text) with the
literal wrapped as `%v%`; `starts-with` gives `v%`; `ends-with` gives
`%v`; any other non-empty operator is passed through verbatim with the
literal unmodified; an absent operator defaults to the IS identity
comparison (rendered `is`). -/
theorem cmp_operator_translation (c : Column) (v : String) (op : String)
    (h1 : op ≠ "contains") (h2 : op ≠ "starts-with") (h3 : op ≠ "ends-with")
    (h4 : op ≠ "") :
    (c.cmp (.olit v) (some "contains")).toString = c.render ++ " like ?"
    ∧ (c.cmp (.olit v) (some "contains")).bind_params = ["%" ++ v ++ "%"]
    ∧ (c.cmp (.olit v) (some "starts-with")).toString = c.render ++ " like ?"
    ∧ (c.cmp (.olit v) (some "starts-with")).bind_params = [v ++ "%"]
    ∧ (c.cmp (.olit v) (some "ends-with")).toString = c.render ++ " like ?"
    ∧ (c.cmp (.olit v) (some "ends-with")).bind_params = ["%" ++ v]
    ∧ (c.cmp (.olit v) (some op)).toString = c.render ++ " " ++ op ++ " ?"
    ∧ (c.cmp (.olit v) (some op)).bind_params = [v]
    ∧ (c.cmp (.olit v) none).toString = c.render ++ " is ?"
    ∧ (c.cmp (.olit v) none).bind_params = [v] := by
  have hop : c.cmp (.olit v) (some op) = Expression [.ocol c, .olit v] (.joinOp op) := by
    rw [Column.cmp]
    simp only [if_neg h4, if_neg h1, if_neg h2, if_neg h3]
  have hopT : (Expression [.ocol c, .olit v] (.joinOp op)).toString
      = (c.render ++ ((" " ++ op) ++ " ")) ++ "?" := rfl
  refine ⟨?_, rfl, ?_, rfl, ?_, rfl, ?_, ?_, ?_, rfl⟩
  · rw [show (c.cmp (.olit v) (some "contains")).toString
        = (c.render ++ " like ") ++ "?" from rfl]
    simp only [String.append_assoc]
    rfl
  · rw [show (c.cmp (.olit v) (some "starts-with")).toString
        = (c.render ++ " like ") ++ "?" from rfl]
    simp only [String.append_assoc]
    rfl
  · rw [show (c.cmp (.olit v) (some "ends-with")).toString
        = (c.render ++ " like ") ++ "?" from rfl]
    simp only [String.append_assoc]
    rfl
  · rw [hop, hopT]
    simp only [String.append_assoc]
    rfl
  · rw [hop]
    rfl
  · rw [show (c.cmp (.olit v) none).toString = (c.render ++ " is ") ++ "?" from rfl]
    simp only [String.append_assoc]
    rfl

/-- Witness for C6 with the pass-through operator `<`. -/
theorem cmp_operator_translation_witness :
    (Column.cmp ⟨"name", ⟨0, "items"⟩⟩ (.olit "John") (some "contains")).toString
        = "items.name like ?"
    ∧ (Column.cmp ⟨"name", ⟨0, "items"⟩⟩ (.olit "John") (some "contains")).bind_params
        = ["%John%"]
    ∧ (Column.cmp ⟨"name", ⟨0, "items"⟩⟩ (.olit "John") (some "<")).toString
        = "items.name < ?"
    ∧ (Column.cmp ⟨"name", ⟨0, "items"⟩⟩ (.olit "John") (some "<")).bind_params = ["John"]
    ∧ (Column.cmp ⟨"name", ⟨0, "items"⟩⟩ (.olit "John") none).toString = "items.name is ?" := by
  have h := cmp_operator_translation ⟨"name", ⟨0, "items"⟩⟩ "John" "<"
    (by decide) (by decide) (by decide) (by decide)
  refine ⟨by decide, by decide, ?_, h.2.2.2.2.2.2.2.1, by decide⟩
  have := h.2.2.2.2.2.2.1
  simpa using this

/-- The clause list of a rendered query, following the specification:
SELECT, then FROM, WHERE, GROUP BY and ORDER BY in this fixed order,
each of the last four omitted entirely when its underlying list is
empty; GROUP BY / ORDER BY entries render as `expr direction` joined by
commas.  The clauses are joined with newlines. -/
def clauseList (cols : List Column) (q : Query) : List String :=
  ["SELECT " ++ joinSep ", " (cols.map Column.render)]
    ++ (if q.tables.isEmpty then []
        else ["FROM " ++ joinSep ", " (q.tables.map TableRef.tbl_name)])
    ++ (if q.filters.isEmpty then [] else ["WHERE " ++ q.whereClause])
    ++ (if q.groups.isEmpty then []
        else ["GROUP BY " ++ joinSep ", " (q.groups.map pairRender)])
    ++ (if q.order.isEmpty then []
        else ["ORDER BY " ++ joinSep ", " (q.order.map pairRender)])

/-- Specification-side rendering: the nonempty clauses, in fixed order,
joined by newlines, computed over the expanded query. -/
def specSql (q : Query) : String :=
  joinSep "\n" (clauseList (q.expand).1 (q.expand).2)

def nlConcat : List String → String
  | [] => ""
  | s :: rest => "\n" ++ s ++ nlConcat rest

theorem joinSep_nl (x : String) : ∀ l : List String, joinSep "\n" (x :: l) = x ++ nlConcat l
  | [] => by
    rw [nlConcat]
    exact (String.append_empty x).symm
  | y :: l => by
    rw [joinSep_cons_of_ne "\n" x (y :: l) (List.cons_ne_nil _ _), joinSep_nl y l, nlConcat]
    simp [String.append_assoc]

theorem nlConcat_append : ∀ a b : List String, nlConcat (a ++ b) = nlConcat a ++ nlConcat b
  | [], b => by
    rw [List.nil_append, nlConcat]
    exact (String.empty_append _).symm
  | s :: a, b => by
    rw [List.cons_append, nlConcat, nlConcat, nlConcat_append a b]
    simp [String.append_assoc]

theorem render_eq_clauses (q : Query) :
    (q.render).1
      = "SELECT " ++ joinSep ", " ((q.expand).1.map Column.render)
        ++ (if (q.expand).2.tables.isEmpty then ""
            else "\nFROM " ++ joinSep ", " ((q.expand).2.tables.map TableRef.tbl_name))
        ++ (if (q.expand).2.filters.isEmpty then ""
            else "\nWHERE " ++ (q.expand).2.whereClause)
        ++ (if (q.expand).2.groups.isEmpty then ""
            else "\nGROUP BY " ++ joinSep ", " ((q.expand).2.groups.map pairRender))
        ++ (if (q.expand).2.order.isEmpty then ""
            else "\nORDER BY " ++ joinSep ", " ((q.expand).2.order.map pairRender)) := by
  simp only [Query.render]
  cases hT : (q.expand).2.tables.isEmpty
    <;> cases hF : (q.expand).2.filters.isEmpty
    <;> cases hG : (q.expand).2.groups.isEmpty
    <;> cases hO : (q.expand).2.order.isEmpty
    <;> simp [hT, hF, hG, hO, String.append_empty, String.append_assoc]

/-- C8.  Rendering emits the clauses in the fixed order SELECT, FROM,
WHERE, GROUP BY, ORDER BY; a clause whose underlying list is empty is
omitted entirely (in particular no empty WHERE is emitted); GROUP BY
and ORDER BY entries render as `expr direction` comma-joined: the
rendered text equals the newline-join of the nonempty clause list. -/
theorem render_fixed_clause_order (q : Query) : (q.render).1 = specSql q := by
  have hFROM : ∀ r : String, ("\n" : String) ++ ("FROM " ++ r) = "\nFROM " ++ r := by
    intro r
    rw [← String.append_assoc]
    rfl
  have hWHERE : ∀ r : String, ("\n" : String) ++ ("WHERE " ++ r) = "\nWHERE " ++ r := by
    intro r
    rw [← String.append_assoc]
    rfl
  have hGROUP : ∀ r : String, ("\n" : String) ++ ("GROUP BY " ++ r) = "\nGROUP BY " ++ r := by
    intro r
    rw [← String.append_assoc]
    rfl
  have hORDER : ∀ r : String, ("\n" : String) ++ ("ORDER BY " ++ r) = "\nORDER BY " ++ r := by
    intro r
    rw [← String.append_assoc]
    rfl
  rw [render_eq_clauses, specSql, clauseList, List.singleton_append,
    List.cons_append, List.cons_append, List.cons_append,
    show ∀ l : List String,
        joinSep "\n" (("SELECT " ++ joinSep ", " (List.map Column.render (q.expand).1)) :: l)
          = "SELECT " ++ joinSep ", " (List.map Column.render (q.expand).1) ++ nlConcat l
      from fun l => joinSep_nl _ l]
  rw [nlConcat_append, nlConcat_append, nlConcat_append]
  cases hT : (q.expand).2.tables.isEmpty
    <;> cases hF : (q.expand).2.filters.isEmpty
    <;> cases hG : (q.expand).2.groups.isEmpty
    <;> cases hO : (q.expand).2.order.isEmpty
    <;> simp [hT, hF, hG, hO, nlConcat, String.append_empty, String.append_assoc,
      hFROM, hWHERE, hGROUP, hORDER]


/-- Witness for C3 (amended): the child table's reference joins the
table list for the concrete parent/child pair. -/
theorem follow_references_expansion_witness :
    ("ref", (⟨"id", ⟨1, "child"⟩⟩ : Column)) ∈ parentTable.c
    ∧ (⟨1, "child"⟩ : TableRef) ≠ parentTable.ref
    ∧ (⟨1, "child"⟩ : TableRef)
      ∈ (((Query.new [.tbl parentTable]).follow_references).expand).2.tables :=
  ⟨by decide, by decide,
    (follow_references_expansion parentTable).2.2.2.2.1 ("ref", ⟨"id", ⟨1, "child"⟩⟩)
      (by decide) (by decide)⟩

/-- C9 counterexample: `toString` is not a logical column of the items
table, yet applying the external filter triple
`('toString','=','open')` does not silently skip it — the `in` guard
matches the inherited Object.prototype member and the call throws a
TypeError instead of returning the query. -/
theorem apply_bw_filters_throws_on_prototype_key :
    itemsTable.findCol "toString" = none
    ∧ ((Query.new [.tbl itemsTable]).apply_bw_filters
        [("toString", "=", "open")] itemsTable).isOk = false := by
  decide

theorem apply_bw_skip (tbl : Table) : ∀ (fs : List (String × String × String)) (q : Query),
    (∀ tr ∈ fs, (tbl.findCol tr.1).isSome = true ∨ tr.1 ∉ objectPrototypeKeys) →
    applyBwLoop tbl q fs
      = applyBwLoop tbl q (fs.filter (fun tr => (tbl.findCol tr.1).isSome))
  | [], _, _ => rfl
  | tr :: fs, q, hall => by
    have htail : ∀ tr ∈ fs, (tbl.findCol tr.1).isSome = true ∨ tr.1 ∉ objectPrototypeKeys :=
      fun x hx => hall x (List.mem_cons_of_mem _ hx)
    cases hc : tbl.findCol tr.1 with
    | none =>
      have hproto : tr.1 ∉ objectPrototypeKeys := by
        rcases hall tr (List.mem_cons_self _ _) with hs | hp
        · rw [hc] at hs
          exact absurd hs (by simp)
        · exact hp
      rw [applyBwLoop, List.filter_cons]
      simp only [hc, Option.isSome_none, Bool.false_eq_true, ite_false, if_neg hproto]
      exact apply_bw_skip tbl fs q htail
    | some c =>
      rw [applyBwLoop, List.filter_cons]
      simp only [hc, Option.isSome_some, ite_true]
      rw [applyBwLoop]
      simp only [hc]
      exact apply_bw_skip tbl fs _ htail

theorem apply_bw_adds (tbl : Table) : ∀ (fs : List (String × String × String)) (q : Query),
    (∀ tr ∈ fs, (tbl.findCol tr.1).isSome = true ∨ tr.1 ∉ objectPrototypeKeys) →
    ∃ q2, applyBwLoop tbl q fs = .ok q2
      ∧ q2.filters = q.filters ++ fs.filterMap
          (fun tr => (tbl.findCol tr.1).map (fun c => c.cmp (.olit tr.2.2) (some tr.2.1)))
  | [], q, _ => ⟨q, rfl, by simp⟩
  | tr :: fs, q, hall => by
    have htail : ∀ tr ∈ fs, (tbl.findCol tr.1).isSome = true ∨ tr.1 ∉ objectPrototypeKeys :=
      fun x hx => hall x (List.mem_cons_of_mem _ hx)
    cases hc : tbl.findCol tr.1 with
    | none =>
      have hproto : tr.1 ∉ objectPrototypeKeys := by
        rcases hall tr (List.mem_cons_self _ _) with hs | hp
        · rw [hc] at hs
          exact absurd hs (by simp)
        · exact hp
      obtain ⟨q2, h1, h2⟩ := apply_bw_adds tbl fs q htail
      refine ⟨q2, ?_, ?_⟩
      · rw [applyBwLoop]
        simp only [hc, if_neg hproto]
        exact h1
      · rw [h2, List.filterMap_cons]
        simp [hc]
    | some c =>
      obtain ⟨q2, h1, h2⟩ :=
        apply_bw_adds tbl fs (q.filter (c.cmp (.olit tr.2.2) (some tr.2.1))) htail
      refine ⟨q2, ?_, ?_⟩
      · rw [applyBwLoop]
        simp only [hc]
        exact h1
      · rw [h2, List.filterMap_cons]
        simp only [hc, Option.map_some]
        show (q.filters ++ [c.cmp (.olit tr.2.2) (some tr.2.1)]) ++ _ = _
        simp

/-- C9 (amended).  `apply_bw_filters` is lenient only below the
prototype chain: a triple whose field is neither a logical column of
the table nor an inherited Object.prototype property name adds no
filter, throws nothing, and leaves the query exactly unchanged, and
such triples can be removed without changing the result; each
known-field triple adds exactly one Column comparison filter
`tbl.c[field].cmp(value, op)` and the call returns normally.  (A triple
whose field is an Object.prototype member and not a logical column
instead throws a TypeError, as the counterexample shows.) -/
theorem apply_bw_filters_lenient (q : Query) (tbl : Table)
    (fs : List (String × String × String)) (f o v : String)
    (hmiss : tbl.findCol f = none) (hproto : f ∉ objectPrototypeKeys)
    (hall : ∀ tr ∈ fs, (tbl.findCol tr.1).isSome = true ∨ tr.1 ∉ objectPrototypeKeys) :
    q.apply_bw_filters [(f, o, v)] tbl = .ok q
    ∧ q.apply_bw_filters fs tbl
        = q.apply_bw_filters (fs.filter (fun tr => (tbl.findCol tr.1).isSome)) tbl
    ∧ ∃ q2, q.apply_bw_filters fs tbl = .ok q2
        ∧ q2.filters = q.filters ++ fs.filterMap
            (fun tr => (tbl.findCol tr.1).map (fun c => c.cmp (.olit tr.2.2) (some tr.2.1))) := by
  refine ⟨?_, ?_, ?_⟩
  · show applyBwLoop tbl q [(f, o, v)] = .ok q
    rw [applyBwLoop]
    simp only [hmiss, if_neg hproto]
    rfl
  · show applyBwLoop tbl q fs = applyBwLoop tbl q _
    exact apply_bw_skip tbl fs q hall
  · exact apply_bw_adds tbl fs q hall

/-- Witness for C9 (amended): filtering `items` by the absent,
non-prototype field `status`, alongside one known-field triple. -/
theorem apply_bw_filters_lenient_witness :
    itemsTable.findCol "status" = none
    ∧ "status" ∉ objectPrototypeKeys
    ∧ (Query.new [.tbl itemsTable]).apply_bw_filters [("status", "=", "open")] itemsTable
      = .ok (Query.new [.tbl itemsTable])
    ∧ (Query.new [.tbl itemsTable]).apply_bw_filters
        [("name", "=", "John")] itemsTable
      = (Query.new [.tbl itemsTable]).apply_bw_filters
        ([("name", "=", "John")].filter (fun tr => (itemsTable.findCol tr.1).isSome))
        itemsTable :=
  ⟨by decide, by decide,
    (apply_bw_filters_lenient (Query.new [.tbl itemsTable]) itemsTable
      [("name", "=", "John")] "status" "=" "open" (by decide) (by decide)
      (by decide)).1,
    (apply_bw_filters_lenient (Query.new [.tbl itemsTable]) itemsTable
      [("name", "=", "John")] "status" "=" "open" (by decide) (by decide)
      (by decide)).2.1⟩
